import Mathlib

/-!
Shallow embedding of the Memory Puzzle program (src/main.cpp).

The program is a terminal memory-matching game.  We embed its core
data model and logic as pure Lean functions:

* `Card` with `reveal` / `hide` / `setMatched` (main.cpp lines 12-26);
* the value pool and `makeValues` (lines 34-46);
* the deck built by the `Board` constructor and the constructor's
  validity check (lines 49-69) — the random shuffle is modelled by an
  explicit `shuffle : List Char → List Char` parameter, with theorems
  assuming it produces a permutation of its input;
* `Board` accessors and mutators (lines 71-89);
* C++ `istream >> int` extraction (`parseInt`), used by both
  `Game::readPos` (lines 124-136) and `main`'s dimension parsing
  (lines 199-215);
* one iteration of the `Game::play` loop body (lines 148-191) as
  `loopIter`, consuming a list of input lines and reporting which path
  of the turn was taken.
-/

namespace MemoryPuzzle

/-- A card: value plus revealed/matched flags (main.cpp lines 12-26). -/
structure Card where
  value : Char
  revealed : Bool
  matched : Bool
deriving DecidableEq, Repr

/-- Card construction `Card(char v = ' ')`: face-down, unmatched. -/
def Card.init (v : Char) : Card := ⟨v, false, false⟩

/-- `void reveal() { if (!matched) revealed = true; }` -/
def Card.reveal (cd : Card) : Card :=
  if cd.matched then cd else { cd with revealed := true }

/-- `void hide() { if (!matched) revealed = false; }` -/
def Card.hide (cd : Card) : Card :=
  if cd.matched then cd else { cd with revealed := false }

/-- `void setMatched() { matched = true; revealed = true; }` -/
def Card.setMatched (cd : Card) : Card :=
  { cd with matched := true, revealed := true }

/-- The fixed value pool string of `Board::makeValues` (lines 35-38). -/
def pool : List Char :=
  ("ABCDEFGHIJKLMNOPQRSTUVWXYZ"
   ++ "abcdefghijklmnopqrstuvwxyz"
   ++ "0123456789"
   ++ "!@#$%^&*").toList

/-- `Board::makeValues` (lines 34-46): take the first `pairCount`
symbols of the pool; if the pool is exhausted, cycle it from index 0
(the second loop restarts `i` at 0) until `pairCount` values exist. -/
def makeValues (pairCount : Nat) : List Char :=
  let vals := pool.take pairCount
  vals ++ (List.range (pairCount - vals.length)).map
    (fun i => pool.getD (i % pool.length) ' ')

/-- The paired deck built in the `Board` constructor (lines 56-61):
for each `i < pairs`, push `values[i]` twice. -/
def mkDeck (pairs : Nat) : List Char :=
  let values := makeValues pairs
  (List.range pairs).flatMap (fun i => [values.getD i ' ', values.getD i ' '])

/-- A board: dimensions plus the row-major card vector (lines 28-32). -/
structure Board where
  rows : Int
  cols : Int
  cards : List Card
deriving DecidableEq, Repr

/-- Row-major index `r * cols + c` used by `Board::at` (line 76). -/
def Board.idx (b : Board) (r c : Int) : Nat := (r * b.cols + c).toNat

/-- `Board::at(r, c)`: the card stored at `cards[r * cols + c]`. -/
def Board.atCell (b : Board) (r c : Int) : Card :=
  b.cards.getD (b.idx r c) (Card.init ' ')

/-- The `Board` constructor (lines 49-69).  The validity check throws
(`.error`) on non-positive dimensions or an odd cell count; otherwise
the paired deck is built, shuffled (here: an arbitrary `shuffle`
function standing for `std::shuffle` with a random generator) and laid
into the card vector. -/
def Board.make (r c : Int) (shuffle : List Char → List Char) :
    Except String Board :=
  if r ≤ 0 ∨ c ≤ 0 ∨ (r * c) % 2 ≠ 0 then
    .error "Board must have positive rows/cols and an even number of cells."
  else
    let pairs : Nat := ((r * c) / 2).toNat
    let deck := mkDeck pairs
    .ok { rows := r, cols := c, cards := (shuffle deck).map Card.init }

/-- `Board::revealAt` (line 82). -/
def Board.revealAt (b : Board) (r c : Int) : Board :=
  { b with cards := b.cards.set (b.idx r c) ((b.atCell r c).reveal) }

/-- `Board::hideAt` (line 83). -/
def Board.hideAt (b : Board) (r c : Int) : Board :=
  { b with cards := b.cards.set (b.idx r c) ((b.atCell r c).hide) }

/-- `Board::matchAt` (line 84). -/
def Board.matchAt (b : Board) (r c : Int) : Board :=
  { b with cards := b.cards.set (b.idx r c) ((b.atCell r c).setMatched) }

/-- `Board::allMatched` (lines 86-89). -/
def Board.allMatched (b : Board) : Bool :=
  b.cards.all (fun cd => cd.matched)

/-- Whitespace as classified by C++ `isspace` / stream extraction:
space, tab, newline, vertical tab, form feed, carriage return. -/
def isSpace (ch : Char) : Bool :=
  ch = ' ' || ch = '\t' || ch = '\n' ||
  ch = Char.ofNat 11 || ch = Char.ofNat 12 || ch = '\r'

/-- Accumulate a digit string into a natural number. -/
def digsVal (ds : List Char) : Nat :=
  ds.foldl (fun n d => 10 * n + (d.toNat - 48)) 0

/-- Sign handling of C++ `istream >> int`: consume an optional leading
minus or plus sign; report whether the value is negated. -/
def parseSign (s : List Char) : Bool × List Char :=
  match s with
  | [] => (false, [])
  | ch :: rest =>
    if ch = '-' then (true, rest)
    else if ch = '+' then (false, rest)
    else (false, ch :: rest)

/-- C++ `istream >> int` on the remaining characters of a line: skip
whitespace, read an optional sign and a maximal nonempty digit run;
fail if no digit follows.  (Overflow is not modelled: values are exact
integers.)  Returns the value and the unconsumed rest of the line. -/
def parseInt (s : List Char) : Option (Int × List Char) :=
  let t := s.dropWhile isSpace
  let sgn := parseSign t
  let ds := sgn.2.takeWhile Char.isDigit
  if ds.isEmpty then none
  else
    some (if sgn.1 then -(Int.ofNat (digsVal ds)) else Int.ofNat (digsVal ds),
          sgn.2.dropWhile Char.isDigit)

/-- `ss >> r >> c`: extract two integers in sequence. -/
def parse2 (s : List Char) : Option (Int × Int × List Char) :=
  match parseInt s with
  | none => none
  | some (r, s1) =>
    match parseInt s1 with
    | none => none
    | some (c, s2) => some (r, c, s2)

/-- `Game::valid` (lines 120-122): 0-based bounds check. -/
def Game.valid (rows cols r c : Int) : Bool :=
  0 ≤ r && r < rows && 0 ≤ c && c < cols

/-- One acceptance test of `Game::readPos` (lines 124-136) on a single
line: parse two integers, then require `valid(r-1, c-1)`; on success
return the 0-based pair `(r-1, c-1)`. -/
def readPosStep (rows cols : Int) (line : String) : Option (Int × Int) :=
  match parse2 line.toList with
  | none => none
  | some (r, c, _) =>
    if Game.valid rows cols (r - 1) (c - 1) then some (r - 1, c - 1)
    else none

/-- `Game::readPos`: keep consuming input lines until one is accepted;
`none` models the unbounded re-prompt loop never being fed a valid
line (on end of input the C++ loop spins forever). -/
def readPos (rows cols : Int) : List String → Option ((Int × Int) × List String)
  | [] => none
  | l :: ls =>
    match readPosStep rows cols l with
    | some p => some (p, ls)
    | none => readPos rows cols ls

/-- Game state: the board and the move counter (lines 115-118). -/
structure Game where
  board : Board
  moves : Nat
deriving Repr

/-- The `Game` constructor (line 139): `moves` starts at 0.  Board
construction is modelled separately by `Board.make`. -/
def Game.init (b : Board) : Game := ⟨b, 0⟩

/-- Which path one iteration of the play loop took, carrying the
accepted 0-based selections. -/
inductive Outcome where
  | firstMatched : Int × Int → Outcome
  | sameCard : Int × Int → Outcome
  | secondMatched : Int × Int → Int × Int → Outcome
  | matchFound : Int × Int → Int × Int → Outcome
  | mismatch : Int × Int → Int × Int → Outcome
deriving DecidableEq, Repr

/-- One iteration of the body of the `while (!board.allMatched())`
loop in `Game::play` (lines 148-191), consuming input lines.
`none` means the iteration blocked forever waiting for a valid
selection.  In the mismatch branch one extra line is consumed by the
acknowledgment `getline` before the two cards are hidden. -/
def loopIter (b : Board) (moves : Nat) (ls : List String) :
    Option (Board × Nat × List String × Outcome) :=
  match readPos b.rows b.cols ls with
  | none => none
  | some ((r1, c1), ls1) =>
    if (b.atCell r1 c1).matched then
      some (b, moves, ls1, .firstMatched (r1, c1))
    else
      let b1 := b.revealAt r1 c1
      match readPos b.rows b.cols ls1 with
      | none => none
      | some ((r2, c2), ls2) =>
        if r1 = r2 ∧ c1 = c2 then
          some (b1.hideAt r1 c1, moves, ls2, .sameCard (r1, c1))
        else if (b1.atCell r2 c2).matched then
          some (b1.hideAt r1 c1, moves, ls2, .secondMatched (r1, c1) (r2, c2))
        else
          let b2 := b1.revealAt r2 c2
          if (b2.atCell r1 c1).value = (b2.atCell r2 c2).value then
            some ((b2.matchAt r1 c1).matchAt r2 c2, moves + 1, ls2,
                  .matchFound (r1, c1) (r2, c2))
          else
            some ((b2.hideAt r1 c1).hideAt r2 c2, moves + 1, ls2.tail,
                  .mismatch (r1, c1) (r2, c2))

/-- Does an outcome correspond to a turn that reached the
value-comparison step (line 180)? -/
def Outcome.reachesComparison : Outcome → Bool
  | .matchFound _ _ => true
  | .mismatch _ _ => true
  | _ => false

/-- The dimension parsing of `main` (lines 199-215): an empty line
keeps the defaults `4 4`; a non-empty line that fails to parse as two
integers falls back to `4 4` with a diagnostic; finally an invalid
pair (non-positive or odd product) falls back to `4 4` with a
diagnostic.  Returns the chosen dimensions and the diagnostics
printed. -/
def parseDims (line : String) : (Int × Int) × List String :=
  let first : Int × Int × List String :=
    if line = "" then (4, 4, [])
    else
      match parse2 line.toList with
      | some (r, c, _) => (r, c, [])
      | none => (4, 4, ["Invalid input. Using default 4x4."])
  if first.1 ≤ 0 ∨ first.2.1 ≤ 0 ∨ (first.1 * first.2.1) % 2 ≠ 0 then
    ((4, 4), first.2.2 ++ ["Invalid board dimensions. Using default 4x4."])
  else
    ((first.1, first.2.1), first.2.2)

/-- Proof helper: duplicate every element of a list in place.  The
deck-building loop of the `Board` constructor produces exactly
`pairup (makeValues pairs)`. -/
def pairup (l : List Char) : List Char :=
  l.flatMap (fun ch => [ch, ch])

/-- Spec-side notion (for claim C10) of an integer-literal token:
an optional sign followed by a nonempty run of digits, nothing else. -/
def stripSign (t : List Char) : List Char :=
  match t with
  | [] => []
  | ch :: rest => if ch = '-' ∨ ch = '+' then rest else ch :: rest

/-- Spec-side: is `t` exactly an integer literal? -/
def isIntToken (t : List Char) : Bool :=
  !(stripSign t).isEmpty && (stripSign t).all Char.isDigit

/-- Spec-side: the value of an integer-literal token. -/
def tokenVal (t : List Char) : Int :=
  if t.head? = some '-' then -(Int.ofNat (digsVal (stripSign t)))
  else Int.ofNat (digsVal (stripSign t))

/-! ## Generic list helpers -/

theorem getD_set_eq_of_lt {α : Type} (l : List α) (i : Nat) (a d : α)
    (h : i < l.length) : (l.set i a).getD i d = a := by
  rw [List.getD_eq_getElem?_getD, List.getElem?_set_self h]
  rfl

theorem getD_set_ne {α : Type} (l : List α) {i j : Nat} (a d : α)
    (h : i ≠ j) : (l.set i a).getD j d = l.getD j d := by
  rw [List.getD_eq_getElem?_getD, List.getD_eq_getElem?_getD,
    List.getElem?_set_ne h]

theorem set_getD_cancel {α : Type} (l : List α) (i : Nat) (d : α) :
    l.set i (l.getD i d) = l := by
  induction l generalizing i with
  | nil => rfl
  | cons a l ih =>
    cases i with
    | zero => simp [List.getD_eq_getElem?_getD]
    | succ n =>
      have h : (a :: l).getD (n + 1) d = l.getD n d := by
        simp [List.getD_eq_getElem?_getD]
      show a :: l.set n ((a :: l).getD (n + 1) d) = a :: l
      rw [h, ih]

/-! ## Card lemmas -/

theorem reveal_matched (cd : Card) : cd.reveal.matched = cd.matched := by
  obtain ⟨v, rv, mt⟩ := cd
  cases mt <;> simp [Card.reveal]

theorem hide_matched (cd : Card) : cd.hide.matched = cd.matched := by
  obtain ⟨v, rv, mt⟩ := cd
  cases mt <;> simp [Card.hide]

theorem reveal_hide_cancel (cd : Card) (h : cd.revealed = false) :
    cd.reveal.hide = cd := by
  obtain ⟨v, rv, mt⟩ := cd
  cases mt <;> simp_all [Card.reveal, Card.hide]

theorem hide_revealed_of_not_matched (cd : Card) (h : cd.matched = false) :
    cd.hide.revealed = false := by
  obtain ⟨v, rv, mt⟩ := cd
  cases mt <;> simp_all [Card.hide]

/-- C2: once a card is matched it stays matched and revealed:
`setMatched` forces `matched = true` and `revealed = true`, it is
idempotent, a matched card is left unchanged by `reveal` and `hide`,
and no operation ever clears the `matched` flag. -/
theorem C2_matched_terminal : ∀ cd : Card,
    cd.setMatched.matched = true ∧
    cd.setMatched.revealed = true ∧
    cd.setMatched.setMatched = cd.setMatched ∧
    cd.setMatched.reveal = cd.setMatched ∧
    cd.setMatched.hide = cd.setMatched ∧
    cd.reveal.matched = cd.matched ∧
    cd.hide.matched = cd.matched ∧
    (cd.matched = true → cd.reveal = cd ∧ cd.hide = cd) := by
  intro cd
  obtain ⟨v, rv, mt⟩ := cd
  cases mt <;> simp [Card.setMatched, Card.reveal, Card.hide]

/-- Witness for C2 at a concrete matched card. -/
theorem C2_matched_terminal_witness :
    (Card.mk 'A' true true).reveal = Card.mk 'A' true true ∧
    (Card.mk 'A' true true).hide = Card.mk 'A' true true :=
  (C2_matched_terminal (Card.mk 'A' true true)).2.2.2.2.2.2.2 rfl

/-- C3: board construction reports the invalid-configuration error
exactly when `rows ≤ 0`, `cols ≤ 0`, or `rows*cols` is odd, and
succeeds for every other pair of dimensions. -/
theorem C3_construction_error_iff :
    ∀ (r c : Int) (shuffle : List Char → List Char),
      ((∃ e, Board.make r c shuffle = Except.error e) ↔
        (r ≤ 0 ∨ c ≤ 0 ∨ Odd (r * c))) ∧
      (¬(r ≤ 0 ∨ c ≤ 0 ∨ Odd (r * c)) →
        ∃ b, Board.make r c shuffle = Except.ok b) := by
  intro r c shuffle
  have h2 : ((r * c) % 2 ≠ 0) ↔ Odd (r * c) := by
    rw [Int.odd_iff]
    generalize r * c = n
    omega
  by_cases hcond : r ≤ 0 ∨ c ≤ 0 ∨ (r * c) % 2 ≠ 0
  · have hmake : Board.make r c shuffle =
        Except.error "Board must have positive rows/cols and an even number of cells." := by
      simp only [Board.make, if_pos hcond]
    have hcond' : r ≤ 0 ∨ c ≤ 0 ∨ Odd (r * c) := by
      rcases hcond with h | h | h
      exacts [Or.inl h, Or.inr (Or.inl h), Or.inr (Or.inr (h2.mp h))]
    exact ⟨⟨fun _ => hcond', fun _ => ⟨_, hmake⟩⟩, fun hn => absurd hcond' hn⟩
  · have hok : ∃ b, Board.make r c shuffle = Except.ok b :=
      ⟨⟨r, c, (shuffle (mkDeck ((r * c) / 2).toNat)).map Card.init⟩,
        by simp only [Board.make, if_neg hcond]⟩
    have hcond' : ¬(r ≤ 0 ∨ c ≤ 0 ∨ Odd (r * c)) := by
      intro h
      apply hcond
      rcases h with h | h | h
      exacts [Or.inl h, Or.inr (Or.inl h), Or.inr (Or.inr (h2.mpr h))]
    refine ⟨⟨fun ⟨e, he⟩ => ?_, fun h => absurd h hcond'⟩, fun _ => hok⟩
    obtain ⟨b, hb⟩ := hok
    rw [hb] at he
    cases he

/-- Witness for C3: a 3×3 request errors, a 2×2 request succeeds. -/
theorem C3_construction_error_iff_witness :
    (∃ e, Board.make 3 3 id = Except.error e) ∧
    (∃ b, Board.make 2 2 id = Except.ok b) := by
  constructor
  · exact (C3_construction_error_iff 3 3 id).1.mpr
      (Or.inr (Or.inr ⟨4, by norm_num⟩))
  · refine (C3_construction_error_iff 2 2 id).2 ?_
    rintro (h | h | h)
    · norm_num at h
    · norm_num at h
    · rw [Int.odd_iff] at h
      norm_num at h

/-! ## Value pool and deck lemmas -/

theorem pool_length : pool.length = 70 := rfl

theorem pool_nodup : pool.Nodup := by decide

theorem pairup_count (l : List Char) (v : Char) :
    (pairup l).count v = 2 * l.count v := by
  induction l with
  | nil => rfl
  | cons a l ih =>
    simp only [pairup, List.flatMap_cons] at ih ⊢
    rw [List.count_append, ih, List.count_cons, List.count_cons,
      List.count_cons, List.count_nil]
    split <;> omega

theorem pairup_mem (l : List Char) (v : Char) : v ∈ pairup l ↔ v ∈ l := by
  induction l with
  | nil => simp [pairup]
  | cons a l ih =>
    simp only [pairup, List.flatMap_cons, List.mem_append, List.mem_cons,
      List.not_mem_nil, or_false] at ih ⊢
    rw [ih]
    tauto

theorem pairup_length (l : List Char) : (pairup l).length = 2 * l.length := by
  induction l with
  | nil => rfl
  | cons a l ih =>
    simp only [pairup, List.flatMap_cons, List.length_append,
      List.length_cons, List.length_nil] at ih ⊢
    omega

theorem range_flatMap_getD (l : List Char) (d : Char) :
    (List.range l.length).flatMap (fun i => [l.getD i d, l.getD i d]) =
      pairup l := by
  induction l with
  | nil => rfl
  | cons a l ih =>
    rw [List.length_cons, List.range_succ_eq_map, List.flatMap_cons,
      List.flatMap_map]
    have hfun : (fun i => [(a :: l).getD (Nat.succ i) d,
        (a :: l).getD (Nat.succ i) d]) =
        (fun i : Nat => [l.getD i d, l.getD i d]) := by
      funext i
      simp [List.getD_eq_getElem?_getD]
    rw [hfun, ih]
    simp [pairup, List.flatMap_cons, List.getD_eq_getElem?_getD]

theorem makeValues_length (pc : Nat) : (makeValues pc).length = pc := by
  have h70 : pool.length = 70 := pool_length
  simp only [makeValues, List.length_append, List.length_take,
    List.length_map, List.length_range, h70]
  omega

theorem makeValues_of_le {pc : Nat} (h : pc ≤ 70) :
    makeValues pc = pool.take pc := by
  have h1 : (pool.take pc).length = pc := by
    rw [List.length_take, pool_length]
    omega
  simp [makeValues, h1]

theorem makeValues_nodup {pc : Nat} (h : pc ≤ 70) :
    (makeValues pc).Nodup := by
  rw [makeValues_of_le h]
  exact List.Nodup.sublist (List.take_sublist pc pool) pool_nodup

theorem mkDeck_eq_pairup (pc : Nat) :
    mkDeck pc = pairup (makeValues pc) := by
  have h := makeValues_length pc
  have hr : List.range pc = List.range (makeValues pc).length := by rw [h]
  simp only [mkDeck]
  rw [hr]
  exact range_flatMap_getD (makeValues pc) ' '

theorem mkDeck_count (pc : Nat) (v : Char) :
    (mkDeck pc).count v = 2 * (makeValues pc).count v := by
  rw [mkDeck_eq_pairup, pairup_count]

theorem mkDeck_mem (pc : Nat) (v : Char) :
    v ∈ mkDeck pc ↔ v ∈ makeValues pc := by
  rw [mkDeck_eq_pairup, pairup_mem]

theorem mkDeck_length (pc : Nat) : (mkDeck pc).length = 2 * pc := by
  rw [mkDeck_eq_pairup, pairup_length, makeValues_length]

/-- C8 counterexample: the pool holds 70 symbols, not 68, and at 69
pairs (a 138-cell board, above the claimed 136-cell bound) the pair
values are still pairwise distinct, so no value appears in more than
two cells — cycling does not begin after 68 pairs. -/
theorem C8_pool_counterexample :
    pool.length = 70 ∧ pool.length ≠ 68 ∧ (makeValues 69).Nodup := by
  refine ⟨pool_length, by decide, makeValues_nodup (by norm_num)⟩

/-- C8 (amended): the value pool is a fixed ordered alphabet of
exactly 70 distinct symbols; for up to 70 pairs the first `pairCount`
pool symbols are used, and when `pairCount` exceeds 70 (boards with
more than 140 cells) the pool is cycled from its start, so the first
pool symbol appears in more than two cells of the deck. -/
theorem C8_pool_cycle_amended :
    pool.length = 70 ∧ pool.Nodup ∧
    (∀ pc : Nat, pc ≤ 70 → makeValues pc = pool.take pc) ∧
    (∀ pc : Nat, 70 < pc → 2 < (mkDeck pc).count (pool.getD 0 ' ')) := by
  refine ⟨pool_length, pool_nodup, fun pc h => makeValues_of_le h, ?_⟩
  intro pc h
  rw [mkDeck_count]
  have htake : pool.take pc = pool :=
    List.take_of_length_le (by rw [pool_length]; omega)
  have hcount1 : pool.count (pool.getD 0 ' ') = 1 := by decide
  have hmem2 : pool.getD 0 ' ' ∈
      (List.range (pc - 70)).map (fun i => pool.getD (i % 70) ' ') := by
    refine List.mem_map.mpr ⟨0, List.mem_range.mpr (by omega), ?_⟩
    norm_num
  have hcount2 : 0 <
      ((List.range (pc - 70)).map
        (fun i => pool.getD (i % 70) ' ')).count (pool.getD 0 ' ') :=
    List.count_pos_iff.mpr hmem2
  simp only [makeValues, List.count_append, htake, pool_length, hcount1]
  omega

/-- Witness for C8 (amended) at 2 pairs and at 71 pairs. -/
theorem C8_pool_cycle_amended_witness :
    makeValues 2 = pool.take 2 ∧
    2 < (mkDeck 71).count (pool.getD 0 ' ') :=
  ⟨C8_pool_cycle_amended.2.2.1 2 (by norm_num),
    C8_pool_cycle_amended.2.2.2 71 (by norm_num)⟩

/-- C1: for positive dimensions with an even product of at most 136,
construction succeeds and the laid-out cards are a permutation of the
paired deck: there are exactly `rows*cols` cards, exactly
`rows*cols/2` distinct values, and every present value occupies
exactly two cells.  The shuffle is any function that permutes the
deck, as `std::shuffle` does. -/
theorem C1_board_is_paired_deck (r c : Int) (shuffle : List Char → List Char)
    (hr : 0 < r) (hc : 0 < c) (he : (r * c) % 2 = 0) (hsz : r * c ≤ 136)
    (hperm : (shuffle (mkDeck ((r * c) / 2).toNat)).Perm
      (mkDeck ((r * c) / 2).toNat)) :
    ∃ b : Board, Board.make r c shuffle = Except.ok b ∧
      b.cards.length = (r * c).toNat ∧
      (b.cards.map Card.value).Perm (mkDeck ((r * c) / 2).toNat) ∧
      (b.cards.map Card.value).toFinset.card = ((r * c) / 2).toNat ∧
      ∀ v ∈ b.cards.map Card.value, (b.cards.map Card.value).count v = 2 := by
  have hpos : 0 < r * c := mul_pos hr hc
  have hcond : ¬(r ≤ 0 ∨ c ≤ 0 ∨ (r * c) % 2 ≠ 0) := by
    rintro (h | h | h)
    · omega
    · omega
    · exact h he
  obtain ⟨n, hn⟩ : ∃ n : Int, n = r * c := ⟨r * c, rfl⟩
  rw [← hn] at he hsz hpos
  have h68 : (n / 2).toNat ≤ 68 := by omega
  have h2p : n.toNat = 2 * (n / 2).toNat := by omega
  rw [hn] at h68 h2p
  have h70 : ((r * c) / 2).toNat ≤ 70 := le_trans h68 (by norm_num)
  have hmk : Board.make r c shuffle =
      Except.ok ⟨r, c, (shuffle (mkDeck ((r * c) / 2).toNat)).map Card.init⟩ := by
    simp only [Board.make, if_neg hcond]
  refine ⟨⟨r, c, (shuffle (mkDeck ((r * c) / 2).toNat)).map Card.init⟩,
    hmk, ?_, ?_, ?_, ?_⟩
  · show ((shuffle (mkDeck ((r * c) / 2).toNat)).map Card.init).length = _
    rw [List.length_map, hperm.length_eq, mkDeck_length, ← h2p]
  · show (((shuffle (mkDeck ((r * c) / 2).toNat)).map Card.init).map
      Card.value).Perm _
    rw [List.map_map, show Card.value ∘ Card.init = id from rfl, List.map_id]
    exact hperm
  · show (((shuffle (mkDeck ((r * c) / 2).toNat)).map Card.init).map
      Card.value).toFinset.card = _
    rw [List.map_map, show Card.value ∘ Card.init = id from rfl, List.map_id]
    have hfs : (shuffle (mkDeck ((r * c) / 2).toNat)).toFinset =
        (makeValues ((r * c) / 2).toNat).toFinset := by
      ext v
      simp only [List.mem_toFinset, hperm.mem_iff, mkDeck_mem]
    rw [hfs, List.toFinset_card_of_nodup (makeValues_nodup h70),
      makeValues_length]
  · intro v hv
    rw [List.map_map, show Card.value ∘ Card.init = id from rfl,
      List.map_id] at hv ⊢
    have hvmem : v ∈ makeValues ((r * c) / 2).toNat :=
      (mkDeck_mem _ v).mp (hperm.mem_iff.mp hv)
    have hc1 : (makeValues ((r * c) / 2).toNat).count v = 1 :=
      List.count_eq_one_of_mem (makeValues_nodup h70) hvmem
    rw [hperm.count_eq, mkDeck_count, hc1]

/-- Witness for C1 on a 2×2 board with the identity shuffle. -/
theorem C1_board_is_paired_deck_witness :
    ∃ b : Board, Board.make 2 2 id = Except.ok b ∧
      b.cards.length = ((2 : Int) * 2).toNat ∧
      (b.cards.map Card.value).Perm (mkDeck (((2 : Int) * 2) / 2).toNat) ∧
      (b.cards.map Card.value).toFinset.card = (((2 : Int) * 2) / 2).toNat ∧
      ∀ v ∈ b.cards.map Card.value, (b.cards.map Card.value).count v = 2 :=
  C1_board_is_paired_deck 2 2 id (by norm_num) (by norm_num) (by decide)
    (by norm_num) (List.Perm.refl _)

/-! ## Selection-reading and indexing lemmas -/

theorem readPosStep_valid {rows cols : Int} {line : String} {r c : Int}
    (h : readPosStep rows cols line = some (r, c)) :
    0 ≤ r ∧ r < rows ∧ 0 ≤ c ∧ c < cols := by
  unfold readPosStep at h
  cases hp : parse2 line.toList with
  | none => rw [hp] at h; cases h
  | some x =>
    obtain ⟨a, b2, rest⟩ := x
    rw [hp] at h
    dsimp only at h
    split at h
    case isTrue hv =>
      injection h with h1
      cases h1
      simp only [Game.valid, Bool.and_eq_true, decide_eq_true_eq] at hv
      omega
    case isFalse hv => cases h

theorem readPos_valid {rows cols : Int} {ls : List String} {r c : Int}
    {ls' : List String}
    (h : readPos rows cols ls = some ((r, c), ls')) :
    0 ≤ r ∧ r < rows ∧ 0 ≤ c ∧ c < cols := by
  induction ls with
  | nil => cases h
  | cons l ls ih =>
    unfold readPos at h
    cases hs : readPosStep rows cols l with
    | some p =>
      rw [hs] at h
      dsimp only at h
      injection h with h1
      obtain ⟨pr, pc⟩ := p
      have h2 : (pr, pc) = (r, c) := congrArg Prod.fst h1
      cases h2
      exact readPosStep_valid hs
    | none =>
      rw [hs] at h
      exact ih h

theorem row_major_lt_of_lt (cols : Int) {a1 b1 a2 b2 : Int}
    (hb1 : 0 ≤ b1) (hb1c : b1 < cols) (hb2 : 0 ≤ b2) (ha : a1 < a2) :
    a1 * cols + b1 < a2 * cols + b2 := by
  have hcols : 0 ≤ cols := le_trans hb1 (le_of_lt hb1c)
  calc a1 * cols + b1 < a1 * cols + cols := add_lt_add_left hb1c _
    _ = (a1 + 1) * cols := by ring
    _ ≤ a2 * cols := mul_le_mul_of_nonneg_right (by omega) hcols
    _ ≤ a2 * cols + b2 := le_add_of_nonneg_right hb2

theorem idx_lt_length {b : Board} {r c : Int}
    (hlen : b.cards.length = (b.rows * b.cols).toNat)
    (hr0 : 0 ≤ r) (hr : r < b.rows) (hc0 : 0 ≤ c) (hc : c < b.cols) :
    b.idx r c < b.cards.length := by
  have hcols : 0 ≤ b.cols := le_trans hc0 (le_of_lt hc)
  have h0 : 0 ≤ r * b.cols + c := add_nonneg (mul_nonneg hr0 hcols) hc0
  have h1 : r * b.cols + c < b.rows * b.cols := by
    have h2 := row_major_lt_of_lt b.cols hc0 hc
      (le_refl (0 : Int)) hr
    omega
  rw [hlen]
  unfold Board.idx
  obtain ⟨x, hx⟩ : ∃ x : Int, x = r * b.cols + c := ⟨_, rfl⟩
  obtain ⟨y, hy⟩ : ∃ y : Int, y = b.rows * b.cols := ⟨_, rfl⟩
  rw [← hx] at h0 h1 ⊢
  rw [← hy] at h1 ⊢
  omega

theorem idx_ne {b : Board} {r1 c1 r2 c2 : Int}
    (hr10 : 0 ≤ r1) (hc10 : 0 ≤ c1) (hc1 : c1 < b.cols)
    (hr20 : 0 ≤ r2) (hc20 : 0 ≤ c2) (hc2 : c2 < b.cols)
    (hne : ¬(r1 = r2 ∧ c1 = c2)) : b.idx r1 c1 ≠ b.idx r2 c2 := by
  have hcols : 0 ≤ b.cols := le_trans hc10 (le_of_lt hc1)
  intro h
  have h01 : 0 ≤ r1 * b.cols + c1 := add_nonneg (mul_nonneg hr10 hcols) hc10
  have h02 : 0 ≤ r2 * b.cols + c2 := add_nonneg (mul_nonneg hr20 hcols) hc20
  have heq : r1 * b.cols + c1 = r2 * b.cols + c2 := by
    unfold Board.idx at h
    obtain ⟨x, hx⟩ : ∃ x : Int, x = r1 * b.cols + c1 := ⟨_, rfl⟩
    obtain ⟨y, hy⟩ : ∃ y : Int, y = r2 * b.cols + c2 := ⟨_, rfl⟩
    rw [← hx] at h01 ⊢
    rw [← hy] at h02 ⊢
    rw [← hx, ← hy] at h
    omega
  have hrr : r1 = r2 := by
    rcases lt_trichotomy r1 r2 with hlt | heq2 | hgt
    · exact absurd heq (ne_of_lt (row_major_lt_of_lt b.cols hc10 hc1 hc20 hlt))
    · exact heq2
    · exact absurd heq.symm (ne_of_lt (row_major_lt_of_lt b.cols hc20 hc2 hc10 hgt))
  subst hrr
  exact hne ⟨rfl, by omega⟩

theorem hide_of_not_revealed (cd : Card) (h : cd.revealed = false) :
    cd.hide = cd := by
  obtain ⟨v, rv, mt⟩ := cd
  cases mt <;> simp_all [Card.hide]

theorem hideAt_revealAt_cancel (b : Board) (r c : Int)
    (h : (b.atCell r c).revealed = false) :
    (b.revealAt r c).hideAt r c = b := by
  obtain ⟨rows, cols, cards⟩ := b
  simp only [Board.atCell, Board.idx] at h
  simp only [Board.hideAt, Board.revealAt, Board.atCell, Board.idx,
    Board.mk.injEq, true_and]
  rcases Nat.lt_or_ge ((r * cols + c).toNat) cards.length with hk | hk
  · rw [getD_set_eq_of_lt _ _ _ _ hk, List.set_set,
      reveal_hide_cancel _ h, set_getD_cancel]
  · rw [List.set_eq_of_length_le hk, hide_of_not_revealed _ h,
      set_getD_cancel]

theorem readPos_skip_invalid (rows cols : Int) (bads ls : List String)
    (h : ∀ l ∈ bads, readPosStep rows cols l = none) :
    readPos rows cols (bads ++ ls) = readPos rows cols ls := by
  induction bads with
  | nil => rfl
  | cons bl bads ih =>
    have hb : readPosStep rows cols bl = none :=
      h bl (List.mem_cons_self bl bads)
    rw [List.cons_append]
    have hstep : readPos rows cols (bl :: (bads ++ ls)) =
        readPos rows cols (bads ++ ls) := by
      simp only [readPos, hb]
    rw [hstep]
    exact ih (fun l hl => h l (List.mem_cons_of_mem bl hl))

/-- C7: malformed or out-of-range selection lines are skipped by
`readPos` without bound on the number of retries, and a loop iteration
fed any number of such rejected lines produces exactly the same board,
move counter, and outcome as without them: no board state and no move
count is ever mutated by invalid input. -/
theorem C7_invalid_input_frame :
    ∀ (b : Board) (m : Nat) (bads ls : List String),
      (∀ l ∈ bads, readPosStep b.rows b.cols l = none) →
      readPos b.rows b.cols (bads ++ ls) = readPos b.rows b.cols ls ∧
      loopIter b m (bads ++ ls) = loopIter b m ls := by
  intro b m bads ls h
  have hr := readPos_skip_invalid b.rows b.cols bads ls h
  refine ⟨hr, ?_⟩
  unfold loopIter
  rw [hr]

/-- Witness for C7: two invalid lines (non-numeric, out of range)
before a valid one on a 1×2 board. -/
theorem C7_invalid_input_frame_witness :
    readPos (Board.mk 1 2 [Card.init 'A', Card.init 'B']).rows
        (Board.mk 1 2 [Card.init 'A', Card.init 'B']).cols
        (["x", "9 9"] ++ ["1 1"]) =
      readPos (Board.mk 1 2 [Card.init 'A', Card.init 'B']).rows
        (Board.mk 1 2 [Card.init 'A', Card.init 'B']).cols ["1 1"] ∧
    loopIter (Board.mk 1 2 [Card.init 'A', Card.init 'B']) 0
        (["x", "9 9"] ++ ["1 1"]) =
      loopIter (Board.mk 1 2 [Card.init 'A', Card.init 'B']) 0 ["1 1"] :=
  C7_invalid_input_frame (Board.mk 1 2 [Card.init 'A', Card.init 'B']) 0
    ["x", "9 9"] ["1 1"] (by decide)

/-- C5: the move counter starts at 0, and a loop iteration increments
it by exactly 1 when it reaches the value-comparison step (match or
mismatch) and leaves it unchanged on every rejected selection (first
card already matched, same cell twice, second card already matched);
invalid input lines never change it at all (they are consumed inside
`readPos`, which does not touch the counter). -/
theorem C5_move_increment :
    (∀ b : Board, (Game.init b).moves = 0) ∧
    (∀ (b : Board) (m : Nat) (ls : List String) (b' : Board) (m' : Nat)
        (ls' : List String) (out : Outcome),
      loopIter b m ls = some (b', m', ls', out) →
      m' = if out.reachesComparison then m + 1 else m) := by
  refine ⟨fun b => rfl, ?_⟩
  intro b m ls b' m' ls' out h
  unfold loopIter at h
  dsimp only at h
  repeat' split at h
  all_goals (try exact Option.noConfusion h)
  all_goals
    injection h with h
    simp only [Prod.mk.injEq] at h
    obtain ⟨hb, hm, hls, hout⟩ := h
    subst hout
    subst hm
    simp [Outcome.reachesComparison]

/-- Witness for C5: a 1×2 matching turn takes the counter from 3 to 4. -/
theorem C5_move_increment_witness :
    (4 : Nat) = if (Outcome.matchFound ((0 : Int), (0 : Int))
        ((0 : Int), (1 : Int))).reachesComparison then 3 + 1 else 3 :=
  C5_move_increment.2 (Board.mk 1 2 [Card.init 'A', Card.init 'A']) 3
    ["1 1", "1 2"]
    (Board.mk 1 2 [Card.mk 'A' true true, Card.mk 'A' true true]) 4 []
    (Outcome.matchFound (0, 0) (0, 1)) (by decide)

theorem loopIter_restart_eq (b : Board) (m : Nat) (ls : List String)
    (b' : Board) (m' : Nat) (ls' : List String) (out : Outcome)
    (hlen : b.cards.length = (b.rows * b.cols).toNat)
    (hhid : ∀ i : Nat, i < b.cards.length →
      (b.cards.getD i (Card.init ' ')).matched = false →
      (b.cards.getD i (Card.init ' ')).revealed = false)
    (hout : (∃ q, out = Outcome.sameCard q) ∨
      (∃ q q2, out = Outcome.secondMatched q q2) ∨
      (∃ q, out = Outcome.firstMatched q))
    (h : loopIter b m ls = some (b', m', ls', out)) :
    b' = b ∧ m' = m := by
  unfold loopIter at h
  cases h1 : readPos b.rows b.cols ls with
  | none => rw [h1] at h; exact Option.noConfusion h
  | some res =>
    obtain ⟨⟨r1, c1⟩, ls1⟩ := res
    rw [h1] at h
    dsimp only at h
    obtain ⟨hr10, hr1r, hc10, hc1c⟩ := readPos_valid h1
    by_cases hm1 : (b.atCell r1 c1).matched = true
    · rw [if_pos hm1] at h
      injection h with h
      simp only [Prod.mk.injEq] at h
      exact ⟨h.1.symm, h.2.1.symm⟩
    · rw [if_neg hm1] at h
      cases h2 : readPos b.rows b.cols ls1 with
      | none => rw [h2] at h; exact Option.noConfusion h
      | some res2 =>
        obtain ⟨⟨r2, c2⟩, ls2⟩ := res2
        rw [h2] at h
        dsimp only at h
        have hm1f : (b.atCell r1 c1).matched = false := by
          cases hmm : (b.atCell r1 c1).matched
          · rfl
          · exact absurd hmm hm1
        have hrev : (b.atCell r1 c1).revealed = false :=
          hhid (b.idx r1 c1) (idx_lt_length hlen hr10 hr1r hc10 hc1c) hm1f
        have hcancel : (b.revealAt r1 c1).hideAt r1 c1 = b :=
          hideAt_revealAt_cancel b r1 c1 hrev
        by_cases hsame : r1 = r2 ∧ c1 = c2
        · rw [if_pos hsame] at h
          injection h with h
          simp only [Prod.mk.injEq] at h
          exact ⟨h.1.symm.trans hcancel, h.2.1.symm⟩
        · rw [if_neg hsame] at h
          by_cases hm2 : ((b.revealAt r1 c1).atCell r2 c2).matched = true
          · rw [if_pos hm2] at h
            injection h with h
            simp only [Prod.mk.injEq] at h
            exact ⟨h.1.symm.trans hcancel, h.2.1.symm⟩
          · rw [if_neg hm2] at h
            rcases hout with ⟨q, rfl⟩ | ⟨q, q2, rfl⟩ | ⟨q, rfl⟩ <;>
              split at h <;>
                (injection h with h
                 simp only [Prod.mk.injEq] at h
                 exact absurd h.2.2.2 (by simp))

/-- C6: when the accepted second selection is the same cell as the
first, or names an already-matched card, the first card is hidden
again and the turn restarts with the board in exactly the state it
had at the start of the turn: the boards are equal, the move counter
is unchanged, and every non-matched card is face-down (assuming it
was at the start of the turn, which holds at every turn boundary). -/
theorem C6_turn_restart (b : Board) (m : Nat) (ls : List String)
    (b' : Board) (m' : Nat) (ls' : List String) (p1 p2 : Int × Int)
    (hlen : b.cards.length = (b.rows * b.cols).toNat)
    (hhid : ∀ i : Nat, i < b.cards.length →
      (b.cards.getD i (Card.init ' ')).matched = false →
      (b.cards.getD i (Card.init ' ')).revealed = false) :
    (loopIter b m ls = some (b', m', ls', Outcome.sameCard p1) →
      b' = b ∧ m' = m ∧ ∀ i : Nat, i < b'.cards.length →
        (b'.cards.getD i (Card.init ' ')).matched = false →
        (b'.cards.getD i (Card.init ' ')).revealed = false) ∧
    (loopIter b m ls = some (b', m', ls', Outcome.secondMatched p1 p2) →
      b' = b ∧ m' = m ∧ ∀ i : Nat, i < b'.cards.length →
        (b'.cards.getD i (Card.init ' ')).matched = false →
        (b'.cards.getD i (Card.init ' ')).revealed = false) := by
  constructor <;> intro h
  · obtain ⟨hb, hm⟩ := loopIter_restart_eq b m ls b' m' ls' _ hlen hhid
      (Or.inl ⟨p1, rfl⟩) h
    subst hb
    exact ⟨rfl, hm, hhid⟩
  · obtain ⟨hb, hm⟩ := loopIter_restart_eq b m ls b' m' ls' _ hlen hhid
      (Or.inr (Or.inl ⟨p1, p2, rfl⟩)) h
    subst hb
    exact ⟨rfl, hm, hhid⟩

/-- Witness for C6: selecting cell (1,1) twice on a fresh 1×2 board
restores the starting state and keeps `moves` at 3. -/
theorem C6_turn_restart_witness :
    Board.mk 1 2 [Card.init 'A', Card.init 'B'] =
        Board.mk 1 2 [Card.init 'A', Card.init 'B'] ∧
      (3 : Nat) = 3 ∧
      ∀ i : Nat,
        i < (Board.mk 1 2 [Card.init 'A', Card.init 'B']).cards.length →
        ((Board.mk 1 2 [Card.init 'A', Card.init 'B']).cards.getD i
          (Card.init ' ')).matched = false →
        ((Board.mk 1 2 [Card.init 'A', Card.init 'B']).cards.getD i
          (Card.init ' ')).revealed = false :=
  (C6_turn_restart (Board.mk 1 2 [Card.init 'A', Card.init 'B']) 3
      ["1 1", "1 1", "x"]
      (Board.mk 1 2 [Card.init 'A', Card.init 'B']) 3 ["x"]
      (0, 0) (0, 0) (by decide) (by decide)).1 (by decide)

theorem atCell_getD (b : Board) (r c : Int) :
    b.atCell r c = b.cards.getD (b.idx r c) (Card.init ' ') := rfl

theorem cards_revealAt (b : Board) (r c : Int) :
    (b.revealAt r c).cards =
      b.cards.set (b.idx r c) ((b.atCell r c).reveal) := rfl

theorem cards_hideAt (b : Board) (r c : Int) :
    (b.hideAt r c).cards =
      b.cards.set (b.idx r c) ((b.atCell r c).hide) := rfl

theorem cards_matchAt (b : Board) (r c : Int) :
    (b.matchAt r c).cards =
      b.cards.set (b.idx r c) ((b.atCell r c).setMatched) := rfl

theorem idx_revealAt (b : Board) (r c r' c' : Int) :
    (b.revealAt r c).idx r' c' = b.idx r' c' := rfl

theorem idx_hideAt (b : Board) (r c r' c' : Int) :
    (b.hideAt r c).idx r' c' = b.idx r' c' := rfl

theorem idx_matchAt (b : Board) (r c r' c' : Int) :
    (b.matchAt r c).idx r' c' = b.idx r' c' := rfl

theorem loopIter_compare_shape (b : Board) (m : Nat) (ls : List String)
    (b' : Board) (m' : Nat) (ls' : List String) (out : Outcome)
    (h : loopIter b m ls = some (b', m', ls', out))
    (hout : (∃ q q2, out = Outcome.matchFound q q2) ∨
      (∃ q q2, out = Outcome.mismatch q q2)) :
    ∃ r1 c1 r2 c2 ls1 ls2,
      readPos b.rows b.cols ls = some ((r1, c1), ls1) ∧
      readPos b.rows b.cols ls1 = some ((r2, c2), ls2) ∧
      (b.atCell r1 c1).matched = false ∧
      ¬(r1 = r2 ∧ c1 = c2) ∧
      ((b.revealAt r1 c1).atCell r2 c2).matched = false ∧
      ((out = Outcome.matchFound (r1, c1) (r2, c2) ∧
        b' = (((b.revealAt r1 c1).revealAt r2 c2).matchAt r1 c1).matchAt
          r2 c2) ∨
       (out = Outcome.mismatch (r1, c1) (r2, c2) ∧
        b' = (((b.revealAt r1 c1).revealAt r2 c2).hideAt r1 c1).hideAt
          r2 c2)) := by
  unfold loopIter at h
  cases h1 : readPos b.rows b.cols ls with
  | none => rw [h1] at h; exact Option.noConfusion h
  | some res =>
    obtain ⟨⟨r1, c1⟩, ls1⟩ := res
    rw [h1] at h
    dsimp only at h
    by_cases hm1 : (b.atCell r1 c1).matched = true
    · rw [if_pos hm1] at h
      injection h with h
      simp only [Prod.mk.injEq] at h
      rcases hout with ⟨q, q2, rfl⟩ | ⟨q, q2, rfl⟩ <;>
        exact absurd h.2.2.2 (by simp)
    · rw [if_neg hm1] at h
      cases h2 : readPos b.rows b.cols ls1 with
      | none => rw [h2] at h; exact Option.noConfusion h
      | some res2 =>
        obtain ⟨⟨r2, c2⟩, ls2⟩ := res2
        rw [h2] at h
        dsimp only at h
        have hm1f : (b.atCell r1 c1).matched = false := by
          cases hmm : (b.atCell r1 c1).matched
          · rfl
          · exact absurd hmm hm1
        by_cases hsame : r1 = r2 ∧ c1 = c2
        · rw [if_pos hsame] at h
          injection h with h
          simp only [Prod.mk.injEq] at h
          rcases hout with ⟨q, q2, rfl⟩ | ⟨q, q2, rfl⟩ <;>
            exact absurd h.2.2.2 (by simp)
        · rw [if_neg hsame] at h
          by_cases hm2 : ((b.revealAt r1 c1).atCell r2 c2).matched = true
          · rw [if_pos hm2] at h
            injection h with h
            simp only [Prod.mk.injEq] at h
            rcases hout with ⟨q, q2, rfl⟩ | ⟨q, q2, rfl⟩ <;>
              exact absurd h.2.2.2 (by simp)
          · rw [if_neg hm2] at h
            have hm2f : ((b.revealAt r1 c1).atCell r2 c2).matched = false := by
              cases hmm : ((b.revealAt r1 c1).atCell r2 c2).matched
              · rfl
              · exact absurd hmm hm2
            by_cases hv : (((b.revealAt r1 c1).revealAt r2 c2).atCell
                r1 c1).value =
                (((b.revealAt r1 c1).revealAt r2 c2).atCell r2 c2).value
            · rw [if_pos hv] at h
              injection h with h
              simp only [Prod.mk.injEq] at h
              exact ⟨r1, c1, r2, c2, ls1, ls2, rfl, h2, hm1f, hsame, hm2f,
                Or.inl ⟨h.2.2.2.symm, h.1.symm⟩⟩
            · rw [if_neg hv] at h
              injection h with h
              simp only [Prod.mk.injEq] at h
              exact ⟨r1, c1, r2, c2, ls1, ls2, rfl, h2, hm1f, hsame, hm2f,
                Or.inr ⟨h.2.2.2.symm, h.1.symm⟩⟩

theorem set4_facts {α : Type} (l l1 l2 l3 l4 : List α) (k1 k2 : Nat)
    (f1 f2 g1 g2 : α → α) (d : α)
    (hk1 : k1 < l.length) (hk2 : k2 < l.length) (hne : k1 ≠ k2)
    (e1 : l1 = l.set k1 (f1 (l.getD k1 d)))
    (e2 : l2 = l1.set k2 (f2 (l1.getD k2 d)))
    (e3 : l3 = l2.set k1 (g1 (l2.getD k1 d)))
    (e4 : l4 = l3.set k2 (g2 (l3.getD k2 d))) :
    l4.getD k1 d = g1 (f1 (l.getD k1 d)) ∧
    l4.getD k2 d = g2 (f2 (l.getD k2 d)) ∧
    (∀ i : Nat, i ≠ k1 → i ≠ k2 → l4.getD i d = l.getD i d) := by
  have hl1 : l1.length = l.length := by rw [e1, List.length_set]
  have hl2 : l2.length = l.length := by rw [e2, List.length_set, hl1]
  have hl3 : l3.length = l.length := by rw [e3, List.length_set, hl2]
  have B1 : l1.getD k1 d = f1 (l.getD k1 d) := by
    rw [e1]; exact getD_set_eq_of_lt _ _ _ _ hk1
  have B2 : l1.getD k2 d = l.getD k2 d := by
    rw [e1]; exact getD_set_ne _ _ _ hne
  have B3 : ∀ i : Nat, i ≠ k1 → l1.getD i d = l.getD i d := fun i hi => by
    rw [e1]; exact getD_set_ne _ _ _ (Ne.symm hi)
  have C1 : l2.getD k2 d = f2 (l1.getD k2 d) := by
    rw [e2]; exact getD_set_eq_of_lt _ _ _ _ (by rw [hl1]; exact hk2)
  have C2 : l2.getD k1 d = l1.getD k1 d := by
    rw [e2]; exact getD_set_ne _ _ _ (Ne.symm hne)
  have C3 : ∀ i : Nat, i ≠ k2 → l2.getD i d = l1.getD i d := fun i hi => by
    rw [e2]; exact getD_set_ne _ _ _ (Ne.symm hi)
  have D1 : l3.getD k1 d = g1 (l2.getD k1 d) := by
    rw [e3]; exact getD_set_eq_of_lt _ _ _ _ (by rw [hl2]; exact hk1)
  have D2 : l3.getD k2 d = l2.getD k2 d := by
    rw [e3]; exact getD_set_ne _ _ _ hne
  have D3 : ∀ i : Nat, i ≠ k1 → l3.getD i d = l2.getD i d := fun i hi => by
    rw [e3]; exact getD_set_ne _ _ _ (Ne.symm hi)
  have E1 : l4.getD k2 d = g2 (l3.getD k2 d) := by
    rw [e4]; exact getD_set_eq_of_lt _ _ _ _ (by rw [hl3]; exact hk2)
  have E2 : l4.getD k1 d = l3.getD k1 d := by
    rw [e4]; exact getD_set_ne _ _ _ (Ne.symm hne)
  have E3 : ∀ i : Nat, i ≠ k2 → l4.getD i d = l3.getD i d := fun i hi => by
    rw [e4]; exact getD_set_ne _ _ _ (Ne.symm hi)
  refine ⟨?_, ?_, ?_⟩
  · rw [E2, D1, C2, B1]
  · rw [E1, D2, C1, B2]
  · intro i hi1 hi2
    rw [E3 i hi2, D3 i hi1, C3 i hi2, B3 i hi1]

/-- C4: a turn that reaches the comparison step marks both selected
cells matched (and face-up) when the two values are equal; when they
differ, after the acknowledgment line is consumed both selected cells
are face-down again and no cell's `matched` flag changes anywhere on
the board. -/
theorem C4_compare_resolution (b : Board) (m : Nat) (ls : List String)
    (b' : Board) (m' : Nat) (ls' : List String) (p1 p2 : Int × Int)
    (hlen : b.cards.length = (b.rows * b.cols).toNat) :
    (loopIter b m ls = some (b', m', ls', Outcome.matchFound p1 p2) →
      (b'.atCell p1.1 p1.2).matched = true ∧
      (b'.atCell p1.1 p1.2).revealed = true ∧
      (b'.atCell p2.1 p2.2).matched = true ∧
      (b'.atCell p2.1 p2.2).revealed = true) ∧
    (loopIter b m ls = some (b', m', ls', Outcome.mismatch p1 p2) →
      (b'.atCell p1.1 p1.2).revealed = false ∧
      (b'.atCell p2.1 p2.2).revealed = false ∧
      ∀ i : Nat, (b'.cards.getD i (Card.init ' ')).matched =
        (b.cards.getD i (Card.init ' ')).matched) := by
  constructor <;> intro h
  · obtain ⟨r1, c1, r2, c2, ls1, ls2, h1, h2, hm1f, hsame, hm2f, hcase⟩ :=
      loopIter_compare_shape b m ls b' m' ls' _ h (Or.inl ⟨p1, p2, rfl⟩)
    rcases hcase with ⟨hout, hb⟩ | ⟨hout, hb⟩
    swap
    · exact absurd hout (by simp)
    simp only [Outcome.matchFound.injEq] at hout
    obtain ⟨hp1, hp2⟩ := hout
    subst hp1
    subst hp2
    subst hb
    obtain ⟨hr10, hr1r, hc10, hc1c⟩ := readPos_valid h1
    obtain ⟨hr20, hr2r, hc20, hc2c⟩ := readPos_valid h2
    have hk1 : b.idx r1 c1 < b.cards.length :=
      idx_lt_length hlen hr10 hr1r hc10 hc1c
    have hk2 : b.idx r2 c2 < b.cards.length :=
      idx_lt_length hlen hr20 hr2r hc20 hc2c
    have hne : b.idx r1 c1 ≠ b.idx r2 c2 :=
      idx_ne hr10 hc10 hc1c hr20 hc20 hc2c hsame
    obtain ⟨F1, F2, F3⟩ := set4_facts b.cards
      ((b.revealAt r1 c1).cards)
      (((b.revealAt r1 c1).revealAt r2 c2).cards)
      ((((b.revealAt r1 c1).revealAt r2 c2).matchAt r1 c1).cards)
      (((((b.revealAt r1 c1).revealAt r2 c2).matchAt r1 c1).matchAt
        r2 c2).cards)
      (b.idx r1 c1) (b.idx r2 c2)
      Card.reveal Card.reveal Card.setMatched Card.setMatched
      (Card.init ' ') hk1 hk2 hne rfl rfl rfl rfl
    dsimp only
    simp only [atCell_getD, idx_matchAt, idx_revealAt]
    rw [F1, F2]
    simp [Card.setMatched]
  · obtain ⟨r1, c1, r2, c2, ls1, ls2, h1, h2, hm1f, hsame, hm2f, hcase⟩ :=
      loopIter_compare_shape b m ls b' m' ls' _ h (Or.inr ⟨p1, p2, rfl⟩)
    rcases hcase with ⟨hout, hb⟩ | ⟨hout, hb⟩
    · exact absurd hout (by simp)
    simp only [Outcome.mismatch.injEq] at hout
    obtain ⟨hp1, hp2⟩ := hout
    subst hp1
    subst hp2
    subst hb
    obtain ⟨hr10, hr1r, hc10, hc1c⟩ := readPos_valid h1
    obtain ⟨hr20, hr2r, hc20, hc2c⟩ := readPos_valid h2
    have hk1 : b.idx r1 c1 < b.cards.length :=
      idx_lt_length hlen hr10 hr1r hc10 hc1c
    have hk2 : b.idx r2 c2 < b.cards.length :=
      idx_lt_length hlen hr20 hr2r hc20 hc2c
    have hne : b.idx r1 c1 ≠ b.idx r2 c2 :=
      idx_ne hr10 hc10 hc1c hr20 hc20 hc2c hsame
    obtain ⟨F1, F2, F3⟩ := set4_facts b.cards
      ((b.revealAt r1 c1).cards)
      (((b.revealAt r1 c1).revealAt r2 c2).cards)
      ((((b.revealAt r1 c1).revealAt r2 c2).hideAt r1 c1).cards)
      (((((b.revealAt r1 c1).revealAt r2 c2).hideAt r1 c1).hideAt
        r2 c2).cards)
      (b.idx r1 c1) (b.idx r2 c2)
      Card.reveal Card.reveal Card.hide Card.hide
      (Card.init ' ') hk1 hk2 hne rfl rfl rfl rfl
    simp only [atCell_getD] at hm1f
    simp only [atCell_getD, cards_revealAt, idx_revealAt] at hm2f
    rw [getD_set_ne _ _ _ hne] at hm2f
    dsimp only
    simp only [atCell_getD, idx_hideAt, idx_revealAt]
    rw [F1, F2]
    refine ⟨?_, ?_, ?_⟩
    · apply hide_revealed_of_not_matched
      rw [reveal_matched]
      exact hm1f
    · apply hide_revealed_of_not_matched
      rw [reveal_matched]
      exact hm2f
    · intro i
      by_cases hik1 : i = b.idx r1 c1
      · subst hik1
        rw [F1, hide_matched, reveal_matched]
      · by_cases hik2 : i = b.idx r2 c2
        · subst hik2
          rw [F2, hide_matched, reveal_matched]
        · rw [F3 i hik1 hik2]

/-- Witness for C4: matching the two cells of a 1×2 `A A` board
leaves both cells matched and face-up. -/
theorem C4_compare_resolution_witness :
    ((Board.mk 1 2 [Card.mk 'A' true true, Card.mk 'A' true true]).atCell
      0 0).matched = true ∧
    ((Board.mk 1 2 [Card.mk 'A' true true, Card.mk 'A' true true]).atCell
      0 0).revealed = true ∧
    ((Board.mk 1 2 [Card.mk 'A' true true, Card.mk 'A' true true]).atCell
      0 1).matched = true ∧
    ((Board.mk 1 2 [Card.mk 'A' true true, Card.mk 'A' true true]).atCell
      0 1).revealed = true :=
  (C4_compare_resolution (Board.mk 1 2 [Card.init 'A', Card.init 'A']) 3
    ["1 1", "1 2"]
    (Board.mk 1 2 [Card.mk 'A' true true, Card.mk 'A' true true]) 4 []
    (0, 0) (0, 1) (by decide)).1 (by decide)

/-- C9 counterexample: an empty dimensions line falls back to the 4×4
default silently — no diagnostic message is printed in that fallback
case, contrary to the claim that each fallback prints one. -/
theorem C9_empty_line_counterexample :
    parseDims "" = ((4, 4), []) ∧ (parseDims "").2 = [] := by
  constructor <;> rfl

/-- C9 (amended): an empty dimensions line keeps the 4×4 default with
no diagnostic; a non-empty line that fails integer extraction, and a
parsed-but-invalid pair, each fall back to 4×4 with an explicit
diagnostic; consequently the dimensions passed on are always a valid
configuration and the board-construction error path is unreachable
from the startup prompt. -/
theorem C9_startup_fallback_amended :
    (parseDims "" = ((4, 4), [])) ∧
    (∀ line : String, line ≠ "" → parse2 line.toList = none →
      parseDims line = ((4, 4), ["Invalid input. Using default 4x4."])) ∧
    (∀ (line : String) (r c : Int) (rest : List Char), line ≠ "" →
      parse2 line.toList = some (r, c, rest) →
      (r ≤ 0 ∨ c ≤ 0 ∨ (r * c) % 2 ≠ 0) →
      parseDims line =
        ((4, 4), ["Invalid board dimensions. Using default 4x4."])) ∧
    (∀ line : String, 0 < (parseDims line).1.1 ∧ 0 < (parseDims line).1.2 ∧
      ((parseDims line).1.1 * (parseDims line).1.2) % 2 = 0) ∧
    (∀ (line : String) (shuffle : List Char → List Char),
      ∃ bd, Board.make (parseDims line).1.1 (parseDims line).1.2 shuffle =
        Except.ok bd) := by
  have hvalid : ∀ line : String, 0 < (parseDims line).1.1 ∧
      0 < (parseDims line).1.2 ∧
      ((parseDims line).1.1 * (parseDims line).1.2) % 2 = 0 := by
    intro line
    by_cases hline : line = ""
    · subst hline
      refine ⟨by decide, by decide, by decide⟩
    · cases hp : parse2 line.toList with
      | none =>
        unfold parseDims
        rw [if_neg hline, hp]
        norm_num
      | some x =>
        obtain ⟨r, c, rest⟩ := x
        unfold parseDims
        rw [if_neg hline, hp]
        dsimp only
        by_cases hinv : r ≤ 0 ∨ c ≤ 0 ∨ (r * c) % 2 ≠ 0
        · rw [if_pos hinv]
          norm_num
        · rw [if_neg hinv]
          dsimp only
          push_neg at hinv
          exact ⟨by omega, by omega, hinv.2.2⟩
  refine ⟨rfl, ?_, ?_, hvalid, ?_⟩
  · intro line hne hp
    unfold parseDims
    rw [if_neg hne, hp]
    norm_num
  · intro line r c rest hne hp hinv
    unfold parseDims
    rw [if_neg hne, hp]
    dsimp only
    rw [if_pos hinv]
    rfl
  · intro line shuffle
    obtain ⟨hr, hc, he⟩ := hvalid line
    have hcond : ¬((parseDims line).1.1 ≤ 0 ∨ (parseDims line).1.2 ≤ 0 ∨
        ((parseDims line).1.1 * (parseDims line).1.2) % 2 ≠ 0) := by
      rintro (h | h | h)
      · omega
      · omega
      · exact h he
    exact ⟨⟨(parseDims line).1.1, (parseDims line).1.2,
      (shuffle (mkDeck ((((parseDims line).1.1 * (parseDims line).1.2)) / 2).toNat)).map
        Card.init⟩,
      by simp only [Board.make, if_neg hcond]⟩

/-- Witness for C9 (amended): a non-numeric line produces the
parse-failure diagnostic and the 4×4 default. -/
theorem C9_startup_fallback_amended_witness :
    parseDims "abc" = ((4, 4), ["Invalid input. Using default 4x4."]) :=
  C9_startup_fallback_amended.2.1 "abc" (by decide) (by decide)

/-! ## Character-class and scanning lemmas for the input parser -/

theorem isSpace_not_digit {a : Char} (h : isSpace a = true) :
    a.isDigit = false := by
  simp only [isSpace, Bool.or_eq_true, decide_eq_true_eq] at h
  rcases h with ((((h | h) | h) | h) | h) | h <;> subst h <;> decide

theorem digit_not_space {a : Char} (h : a.isDigit = true) :
    isSpace a = false := by
  cases hs : isSpace a
  · rfl
  · rw [isSpace_not_digit hs] at h
    cases h

theorem digit_ne_sign {a : Char} (h : a.isDigit = true) :
    a ≠ '-' ∧ a ≠ '+' := by
  constructor <;> rintro rfl <;> exact absurd h (by decide)

theorem dropWhile_append_all {p : Char → Bool} {xs ys : List Char}
    (h : ∀ a ∈ xs, p a = true) :
    (xs ++ ys).dropWhile p = ys.dropWhile p := by
  induction xs with
  | nil => rfl
  | cons x xs ih =>
    rw [List.cons_append, List.dropWhile_cons, h x (List.mem_cons_self x xs)]
    exact ih (fun a ha => h a (List.mem_cons_of_mem x ha))

theorem dropWhile_cons_neg {p : Char → Bool} {a : Char} {l : List Char}
    (h : p a = false) : (a :: l).dropWhile p = a :: l := by
  rw [List.dropWhile_cons, h]
  simp

theorem take_drop_exact {p : Char → Bool} (xs ys : List Char)
    (hx : ∀ a ∈ xs, p a = true)
    (hy : ∀ a, ys.head? = some a → p a = false) :
    (xs ++ ys).takeWhile p = xs ∧ (xs ++ ys).dropWhile p = ys := by
  induction xs with
  | nil =>
    simp only [List.nil_append]
    cases ys with
    | nil => simp
    | cons a ys2 =>
      have ha := hy a rfl
      rw [List.takeWhile_cons, List.dropWhile_cons, ha]
      simp
  | cons x xs ih =>
    have hx1 : p x = true := hx x (List.mem_cons_self x xs)
    obtain ⟨ih1, ih2⟩ := ih (fun a ha => hx a (List.mem_cons_of_mem x ha))
    rw [List.cons_append, List.takeWhile_cons, List.dropWhile_cons, hx1]
    simp [ih1, ih2]

theorem intToken_cases (t : List Char) (ht : isIntToken t = true) :
    (∃ u, t = '-' :: u ∧ u ≠ [] ∧ ∀ a ∈ u, a.isDigit = true) ∨
    (∃ u, t = '+' :: u ∧ u ≠ [] ∧ ∀ a ∈ u, a.isDigit = true) ∨
    (t ≠ [] ∧ ∀ a ∈ t, a.isDigit = true) := by
  cases t with
  | nil => exact absurd ht (by decide)
  | cons ch u =>
    simp only [isIntToken, Bool.and_eq_true, Bool.not_eq_true',
      List.all_eq_true] at ht
    by_cases hm : ch = '-'
    · subst hm
      left
      simp only [stripSign, if_pos (Or.inl rfl)] at ht
      refine ⟨u, rfl, ?_, ht.2⟩
      intro hu
      rw [hu] at ht
      exact absurd ht.1 (by decide)
    · by_cases hp : ch = '+'
      · subst hp
        right; left
        simp only [stripSign, if_pos (Or.inr rfl)] at ht
        refine ⟨u, rfl, ?_, ht.2⟩
        intro hu
        rw [hu] at ht
        exact absurd ht.1 (by decide)
      · right; right
        have hcond : ¬(ch = '-' ∨ ch = '+') := by
          rintro (h | h)
          exacts [hm h, hp h]
        simp only [stripSign, if_neg hcond] at ht
        exact ⟨by simp, ht.2⟩

theorem isEmpty_false_of_ne_nil {l : List Char} (h : l ≠ []) :
    l.isEmpty = false := by
  cases l with
  | nil => exact absurd rfl h
  | cons a l => rfl

theorem parseInt_token (ws t rest : List Char)
    (hws : ∀ a ∈ ws, isSpace a = true)
    (ht : isIntToken t = true)
    (hrest : ∀ a, rest.head? = some a → a.isDigit = false) :
    parseInt (ws ++ (t ++ rest)) = some (tokenVal t, rest) := by
  rcases intToken_cases t ht with ⟨u, rfl, hu, hall⟩ | ⟨u, rfl, hu, hall⟩ |
    ⟨hne, hall⟩
  · -- leading minus sign
    have hdrop : (ws ++ ('-' :: u ++ rest)).dropWhile isSpace =
        '-' :: (u ++ rest) := by
      rw [dropWhile_append_all hws]
      exact dropWhile_cons_neg (by decide)
    have hsign : parseSign ('-' :: (u ++ rest)) = (true, u ++ rest) := by
      simp [parseSign]
    obtain ⟨htk, hdr⟩ := take_drop_exact u rest hall hrest
    simp only [parseInt, hdrop, hsign, htk, hdr,
      isEmpty_false_of_ne_nil hu, Bool.false_eq_true, if_false]
    have hval : tokenVal ('-' :: u) = -(Int.ofNat (digsVal u)) := by
      simp [tokenVal, stripSign]
    rw [hval]
    simp
  · -- leading plus sign
    have hdrop : (ws ++ ('+' :: u ++ rest)).dropWhile isSpace =
        '+' :: (u ++ rest) := by
      rw [dropWhile_append_all hws]
      exact dropWhile_cons_neg (by decide)
    have hsign : parseSign ('+' :: (u ++ rest)) = (false, u ++ rest) := by
      simp [parseSign]
    obtain ⟨htk, hdr⟩ := take_drop_exact u rest hall hrest
    simp only [parseInt, hdrop, hsign, htk, hdr,
      isEmpty_false_of_ne_nil hu, Bool.false_eq_true, if_false]
    have hval : tokenVal ('+' :: u) = Int.ofNat (digsVal u) := by
      simp [tokenVal, stripSign]
    rw [hval]
  · -- bare digit run
    obtain ⟨ch, u, rfl⟩ : ∃ ch u, t = ch :: u := by
      cases t with
      | nil => exact absurd rfl hne
      | cons ch u => exact ⟨ch, u, rfl⟩
    have hchd : ch.isDigit = true := hall ch (List.mem_cons_self ch u)
    obtain ⟨hchm, hchp⟩ := digit_ne_sign hchd
    have hdrop : (ws ++ (ch :: u ++ rest)).dropWhile isSpace =
        ch :: (u ++ rest) := by
      rw [dropWhile_append_all hws]
      exact dropWhile_cons_neg (digit_not_space hchd)
    have hsign : parseSign (ch :: (u ++ rest)) = (false, ch :: (u ++ rest)) := by
      simp [parseSign, hchm, hchp]
    have hx : ∀ a ∈ ch :: u, a.isDigit = true := hall
    obtain ⟨htk, hdr⟩ := take_drop_exact (ch :: u) rest hx hrest
    rw [List.cons_append] at htk hdr
    simp only [parseInt, hdrop, hsign, htk, hdr,
      isEmpty_false_of_ne_nil (by simp : (ch :: u) ≠ []),
      Bool.false_eq_true, if_false]
    have hval : tokenVal (ch :: u) = Int.ofNat (digsVal (ch :: u)) := by
      simp [tokenVal, stripSign, hchm, hchp]
    rw [hval]

theorem parse2_tokens (ws0 t1 ws1 t2 tail : List Char)
    (hws0 : ∀ a ∈ ws0, isSpace a = true)
    (hws1 : ∀ a ∈ ws1, isSpace a = true) (hnil : ws1 ≠ [])
    (ht1 : isIntToken t1 = true) (ht2 : isIntToken t2 = true)
    (htail : ∀ a, tail.head? = some a → isSpace a = true) :
    parse2 (ws0 ++ (t1 ++ (ws1 ++ (t2 ++ tail)))) =
      some (tokenVal t1, tokenVal t2, tail) := by
  obtain ⟨w, ws1x, rfl⟩ : ∃ w ws1x, ws1 = w :: ws1x := by
    cases ws1 with
    | nil => exact absurd rfl hnil
    | cons w ws1x => exact ⟨w, ws1x, rfl⟩
  have h1 : parseInt (ws0 ++ (t1 ++ ((w :: ws1x) ++ (t2 ++ tail)))) =
      some (tokenVal t1, (w :: ws1x) ++ (t2 ++ tail)) := by
    refine parseInt_token ws0 t1 _ hws0 ht1 ?_
    intro a ha
    injection ha with ha
    subst ha
    exact isSpace_not_digit (hws1 w (List.mem_cons_self w ws1x))
  have h2 : parseInt ((w :: ws1x) ++ (t2 ++ tail)) =
      some (tokenVal t2, tail) :=
    parseInt_token (w :: ws1x) t2 tail hws1 ht2
      (fun a ha => isSpace_not_digit (htail a ha))
  simp only [parse2, h1, h2]

/-- C10 counterexample: the line `1+2` contains no whitespace at all,
so it has a single whitespace-separated token, and that token is not
an integer literal — yet `readPos` accepts it (stream extraction
reads the prefix `1`, then `+2`), returning (0, 1).  Acceptance is
therefore not equivalent to the first two whitespace-separated tokens
parsing as integers. -/
theorem C10_prefix_parse_counterexample :
    readPosStep 4 4 (String.mk ['1', '+', '2']) = some (0, 1) ∧
    (∀ a ∈ ['1', '+', '2'], isSpace a = false) ∧
    isIntToken ['1', '+', '2'] = false := by
  decide

/-- C10 (amended): every line consisting of optional whitespace, an
integer-literal token, whitespace, a second integer-literal token,
and optional further content starting with whitespace, is accepted by
the in-game selection parser exactly when the 1-based values are in
range, returning the 0-based pair — the trailing content is ignored —
and the startup rows/cols line parses the same two tokens with the
same leniency, falling back to 4×4 with a diagnostic exactly when the
parsed pair is invalid.  (Acceptance is strictly broader than strict
tokenization: stream extraction takes maximal integer prefixes, as the
counterexample `1+2` shows.) -/
theorem C10_token_lines_accepted_amended :
    (∀ (rows cols : Int) (ws0 t1 ws1 t2 tail : List Char),
      (∀ a ∈ ws0, isSpace a = true) → (∀ a ∈ ws1, isSpace a = true) →
      ws1 ≠ [] → isIntToken t1 = true → isIntToken t2 = true →
      (∀ a, tail.head? = some a → isSpace a = true) →
      readPosStep rows cols
          (String.mk (ws0 ++ (t1 ++ (ws1 ++ (t2 ++ tail))))) =
        (if Game.valid rows cols (tokenVal t1 - 1) (tokenVal t2 - 1)
         then some (tokenVal t1 - 1, tokenVal t2 - 1) else none)) ∧
    (∀ (ws0 t1 ws1 t2 tail : List Char),
      (∀ a ∈ ws0, isSpace a = true) → (∀ a ∈ ws1, isSpace a = true) →
      ws1 ≠ [] → isIntToken t1 = true → isIntToken t2 = true →
      (∀ a, tail.head? = some a → isSpace a = true) →
      parseDims (String.mk (ws0 ++ (t1 ++ (ws1 ++ (t2 ++ tail))))) =
        (if tokenVal t1 ≤ 0 ∨ tokenVal t2 ≤ 0 ∨
            (tokenVal t1 * tokenVal t2) % 2 ≠ 0
         then ((4, 4), ["Invalid board dimensions. Using default 4x4."])
         else ((tokenVal t1, tokenVal t2), []))) := by
  constructor
  · intro rows cols ws0 t1 ws1 t2 tail hws0 hws1 hnil ht1 ht2 htail
    have hp := parse2_tokens ws0 t1 ws1 t2 tail hws0 hws1 hnil ht1 ht2 htail
    unfold readPosStep
    rw [show (String.mk (ws0 ++ (t1 ++ (ws1 ++ (t2 ++ tail))))).toList =
      ws0 ++ (t1 ++ (ws1 ++ (t2 ++ tail))) from rfl, hp]
  · intro ws0 t1 ws1 t2 tail hws0 hws1 hnil ht1 ht2 htail
    have hp := parse2_tokens ws0 t1 ws1 t2 tail hws0 hws1 hnil ht1 ht2 htail
    have hne : String.mk (ws0 ++ (t1 ++ (ws1 ++ (t2 ++ tail)))) ≠ "" := by
      intro hcon
      have hdata : ws0 ++ (t1 ++ (ws1 ++ (t2 ++ tail))) = [] :=
        congrArg String.data hcon
      simp only [List.append_eq_nil] at hdata
      obtain ⟨hw, ht, -⟩ := hdata
      rw [ht] at ht1
      exact absurd ht1 (by decide)
    unfold parseDims
    rw [if_neg hne]
    rw [show (String.mk (ws0 ++ (t1 ++ (ws1 ++ (t2 ++ tail))))).toList =
      ws0 ++ (t1 ++ (ws1 ++ (t2 ++ tail))) from rfl, hp]
    dsimp only [List.nil_append]

/-- Witness for C10 (amended) on the line `2 3` with a 4×4 board. -/
theorem C10_token_lines_accepted_amended_witness :
    readPosStep 4 4 (String.mk ([] ++ (['2'] ++ ([' '] ++ (['3'] ++ []))))) =
      (if Game.valid 4 4 (tokenVal ['2'] - 1) (tokenVal ['3'] - 1)
       then some (tokenVal ['2'] - 1, tokenVal ['3'] - 1) else none) ∧
    parseDims (String.mk ([] ++ (['2'] ++ ([' '] ++ (['3'] ++ []))))) =
      (if tokenVal ['2'] ≤ 0 ∨ tokenVal ['3'] ≤ 0 ∨
          (tokenVal ['2'] * tokenVal ['3']) % 2 ≠ 0
       then ((4, 4), ["Invalid board dimensions. Using default 4x4."])
       else ((tokenVal ['2'], tokenVal ['3']), [])) :=
  ⟨C10_token_lines_accepted_amended.1 4 4 [] ['2'] [' '] ['3'] []
      (by decide) (by decide) (by decide) (by decide) (by decide)
      (fun a ha => Option.noConfusion ha),
    C10_token_lines_accepted_amended.2 [] ['2'] [' '] ['3'] []
      (by decide) (by decide) (by decide) (by decide) (by decide)
      (fun a ha => Option.noConfusion ha)⟩

end MemoryPuzzle
